import Mathlib

set_option maxHeartbeats 1000000
set_option maxRecDepth 8000

namespace AccountabilityCalendars

/-- A calendar date: the date part of a Python `datetime`, proleptic Gregorian. -/
structure Date where
  year : Nat
  month : Nat
  day : Nat
deriving DecidableEq

/-- Gregorian leap-year test, as in Python's `calendar.isleap` /
`datetime`'s internal `_is_leap`. -/
def isLeap (y : Nat) : Bool := (y % 4 == 0 && y % 100 != 0) || y % 400 == 0

/-- Number of days in month `m` (1..12) of year `y`, as in `datetime`'s
internal `_days_in_month`. -/
def daysInMonth (y m : Nat) : Nat :=
  if m = 2 then (if isLeap y then 29 else 28)
  else if m = 4 ∨ m = 6 ∨ m = 9 ∨ m = 11 then 30
  else 31

/-- Days in all years strictly before year `y` (year 1 is the first year),
as in `datetime`'s internal `_days_before_year`. -/
def daysBeforeYear (y : Nat) : Nat :=
  (y - 1) * 365 + (y - 1) / 4 - (y - 1) / 100 + (y - 1) / 400

/-- Days in year `y` strictly before month `m`, as in `datetime`'s internal
`_days_before_month`. -/
def daysBeforeMonth (y m : Nat) : Nat :=
  ((List.range (m - 1)).map (fun i => daysInMonth y (i + 1))).sum

/-- Python `datetime.toordinal()`: proleptic Gregorian day number with
0001-01-01 mapped to 1. -/
def toOrdinal (d : Date) : Nat :=
  daysBeforeYear d.year + daysBeforeMonth d.year d.month + d.day

/-- Python `datetime.weekday()`: Monday = 0 .. Sunday = 6; CPython computes
`(toordinal + 6) % 7`. -/
def weekday (d : Date) : Nat := (toOrdinal d + 6) % 7

/-- Structural validity of a date, exactly the invariant the `datetime`
constructor enforces on year/month/day (year range handled separately). -/
def Date.Valid (d : Date) : Prop :=
  1 ≤ d.year ∧ 1 ≤ d.month ∧ d.month ≤ 12 ∧ 1 ≤ d.day ∧
    d.day ≤ daysInMonth d.year d.month

instance (d : Date) : Decidable d.Valid := by
  unfold Date.Valid; infer_instance

/-- The successor date: one day later, rolling over month and year
boundaries by plain calendar arithmetic. -/
def nextDay (d : Date) : Date :=
  if d.day < daysInMonth d.year d.month then ⟨d.year, d.month, d.day + 1⟩
  else if d.month < 12 then ⟨d.year, d.month + 1, 1⟩
  else ⟨d.year + 1, 1, 1⟩

/-- Python `d + timedelta(days=n)` (for `n ≥ 0`): `timedelta` addition acts
on the ordinal day number, here realized as `n` successor steps; the lemma
`toOrdinal_addDays` certifies agreement with the ordinal semantics. -/
def addDays (d : Date) : Nat → Date
  | 0 => d
  | n + 1 => nextDay (addDays d n)

/-- One decimal digit `'0'..'9'` (code points 48..57), the character class
CPython's `_strptime` regex uses for numeric directives. -/
def isDig (c : Char) : Bool := 48 ≤ c.toNat && c.toNat ≤ 57

/-- Split off the maximal leading run of decimal digits. -/
def digitRun : List Char → List Char × List Char
  | [] => ([], [])
  | c :: cs =>
    if isDig c then
      let p := digitRun cs
      (c :: p.1, p.2)
    else ([], c :: cs)

/-- Numeric value of a digit string (the `int()` CPython applies to each
matched regex group). -/
def digitsVal (cs : List Char) : Nat :=
  cs.foldl (fun a c => 10 * a + (c.toNat - 48)) 0

/-- CPython `_strptime` regex match for the format `"%m/%d/%Y"`, i.e.
`(1[0-2]|0[1-9]|[1-9])/(3[01]|[12]\d|0[1-9]|[1-9])/(\d\d\d\d)` anchored at
the start with a full-consumption check at the end. Since each field is a
run of digits delimited by `'/'` or the end of input and no alternative can
match a proper prefix of a digit run and still reach the delimiter, the
backtracking regex matches exactly when the three maximal digit runs have
these lengths and values. Returns `(month, day, year)`. -/
def regexMatchMDY (cs : List Char) : Option (Nat × Nat × Nat) :=
  match (digitRun cs).2 with
  | [] => none
  | c1 :: r1 =>
    if c1 = '/' then
      match (digitRun r1).2 with
      | [] => none
      | c2 :: r2 =>
        if c2 = '/' then
          if ((digitRun cs).1.length = 1 ∨ (digitRun cs).1.length = 2) ∧
             1 ≤ digitsVal (digitRun cs).1 ∧ digitsVal (digitRun cs).1 ≤ 12 ∧
             ((digitRun r1).1.length = 1 ∨ (digitRun r1).1.length = 2) ∧
             1 ≤ digitsVal (digitRun r1).1 ∧ digitsVal (digitRun r1).1 ≤ 31 ∧
             (digitRun r2).1.length = 4 ∧ (digitRun r2).2 = []
          then some (digitsVal (digitRun cs).1, digitsVal (digitRun r1).1,
                     digitsVal (digitRun r2).1)
          else none
        else none
    else none

/-- Python `datetime.strptime(s, "%m/%d/%Y")`: the `_strptime` regex match
followed by the `datetime` constructor, which validates `MINYEAR ≤ year ≤
MAXYEAR`, `1 ≤ month ≤ 12` and `1 ≤ day ≤ days_in_month`; any failure
raises `ValueError`, modelled as `none`. -/
def strptimeMDY (s : String) : Option Date :=
  match regexMatchMDY s.toList with
  | none => none
  | some (m, d, y) =>
    if 1 ≤ y ∧ y ≤ 9999 ∧ 1 ≤ m ∧ m ≤ 12 ∧ 1 ≤ d ∧ d ≤ daysInMonth y m
    then some ⟨y, m, d⟩ else none

def fmt_error_msg : String := "Invalid date format. Please use MM/DD/YYYY."

def monday_error_msg : String := "Date must be a Monday."

/-- `validate_date` from `generate.py`: parse with
`datetime.strptime(date_str, "%m/%d/%Y")`, raise the format `ValueError`
if that fails, raise the Monday `ValueError` if `dt.weekday() != 0`,
otherwise return the parsed datetime. -/
def validate_date (date_str : String) : Except String Date :=
  match strptimeMDY date_str with
  | none => .error fmt_error_msg
  | some dt => if weekday dt ≠ 0 then .error monday_error_msg else .ok dt

/-- `get_next_monday` from `generate.py`; the ambient `datetime.today()` is
modelled as the explicit argument `today`. -/
def get_next_monday (today : Date) : Date :=
  let days_ahead := (7 - weekday today) % 7
  addDays today days_ahead

/-- `generate_week_dates` from `generate.py`: 10 weeks of 7 dates,
`week_start = start_date + timedelta(weeks=week_num)` and day `d` of a week
is `week_start + timedelta(days=d)`. -/
def generate_week_dates (start_date : Date) : List (List Date) :=
  (List.range 10).map (fun week_num =>
    let week_start := addDays start_date (7 * week_num)
    (List.range 7).map (fun d => addDays week_start d))

/-- The shape of strings the `%m/%d/%Y` regex accepts: three slash-separated
digit runs — month of one or two digits valued 1..12, day of one or two
digits valued 1..31, year of exactly four digits. -/
def MDYShape (s : String) : Prop :=
  ∃ mrun drun yrun : List Char,
    s.toList = mrun ++ '/' :: (drun ++ '/' :: yrun) ∧
    (∀ c ∈ mrun, isDig c = true) ∧ (∀ c ∈ drun, isDig c = true) ∧
    (∀ c ∈ yrun, isDig c = true) ∧
    (mrun.length = 1 ∨ mrun.length = 2) ∧
    1 ≤ digitsVal mrun ∧ digitsVal mrun ≤ 12 ∧
    (drun.length = 1 ∨ drun.length = 2) ∧
    1 ≤ digitsVal drun ∧ digitsVal drun ≤ 31 ∧
    yrun.length = 4

/-- Zero-pad a digit run to two characters. -/
def zeroPad2 (run : List Char) : List Char :=
  if run.length = 1 then '0' :: run else run

/-- The character of decimal digit `n ≤ 9`. -/
def digitChar (n : Nat) : Char := Char.ofNat (48 + n)

/-- Zero-padded two-digit decimal rendering of `n < 100`, as strftime's
`%m` and `%d` directives produce. -/
def twoDigit (n : Nat) : List Char := [digitChar (n / 10), digitChar (n % 10)]

/-- `format_date` from `generate.py`: `dt.strftime("%m/%d")`. -/
def format_date (dt : Date) : String :=
  String.mk (twoDigit dt.month ++ '/' :: twoDigit dt.day)

/-- Page constants from `_create_calendar_pdf` (unit: points, landscape US
letter): `page_w = 11 * 72`, `page_h = 8.5 * 72`, `margin = 20`,
`header_h = 20`. Python float arithmetic is modelled exactly over `ℚ`. -/
def page_w : ℚ := 11 * 72

def page_h : ℚ := 8.5 * 72

def margin : ℚ := 20

def header_h : ℚ := 20

/-- The column scaling of `_create_calendar_pdf`:
`total_col_w = page_w - 2*margin`, `scale = total_col_w / sum(col_widths)`,
and each width is replaced by `w * scale`. -/
def scaled_col_widths (col_widths : List ℚ) : List ℚ :=
  let total_col_w := page_w - 2 * margin
  let raw_total := col_widths.sum
  let scale := total_col_w / raw_total
  col_widths.map (fun w => w * scale)

/-- `row_h = (page_h - 2*margin - header_h) / 10` from
`_create_calendar_pdf`. -/
def row_h : ℚ := (page_h - 2 * margin - header_h) / 10

/-- Left-to-right effectful map over `Option`: apply `f` to each element in
order, stopping at the first failure — the behavior of a Python `for` loop
whose body may raise. -/
def mapMO {α β : Type} (f : α → Option β) : List α → Option (List β)
  | [] => some []
  | a :: t =>
    match f a with
    | none => none
    | some b =>
      match mapMO f t with
      | none => none
      | some r => some (b :: r)

/-- Python truthiness of an optional list: `if workout_labels:` and
`if total_content:` are false exactly for `None` and for `[]`. -/
def truthy (o : Option (List String)) : Bool :=
  match o with
  | none => false
  | some l => !l.isEmpty

/-- The text a single week row of the calendar grid carries: the centered
week-number label, the 7 per-day date strings, the per-day workout labels
(empty when none are drawn) and the text lines of the TOTAL cell (empty
when none are drawn). -/
structure WeekRow where
  weekLabel : String
  dayDates : List String
  dayLabels : List String
  totalLines : List String
deriving DecidableEq

/-- `_draw_week_row` from `generate.py`, as the text it draws: the week
number cell shows `str(week_num)`; for `day_idx in range(7)` the cell shows
`format_date(week_dates[day_idx])` and, when `workout_labels` is truthy,
`workout_labels[day_idx]`; when `has_total` and `total_content` is truthy
the TOTAL cell shows the lines of `total_content`. A Python `IndexError`
from either subscript is modelled as `none`. -/
def draw_week_row (week_num : Nat) (week_dates : List Date) (has_total : Bool)
    (total_content : Option (List String)) (workout_labels : Option (List String)) :
    Option WeekRow :=
  match mapMO (fun day_idx => (week_dates[day_idx]?).map format_date) (List.range 7) with
  | none => none
  | some dayDates =>
    match (if truthy workout_labels then
             mapMO (fun day_idx => (workout_labels.getD [])[day_idx]?) (List.range 7)
           else some []) with
    | none => none
    | some dayLabels =>
      some { weekLabel := toString week_num, dayDates := dayDates,
             dayLabels := dayLabels,
             totalLines :=
               if has_total && truthy total_content then total_content.getD [] else [] }

/-- `os.makedirs(dir, exist_ok=True)` over a model filesystem: the list of
directories that exist. -/
def makedirs (fs : List String) (dir : String) : List String :=
  if dir ∈ fs then fs else dir :: fs

/-- `os.path.join(dir, filename)` for a directory and a relative
filename. -/
def os_path_join (a b : String) : String := a ++ "/" ++ b

/-- The rendered one-page document: header labels, scaled column widths and
the ten week rows. -/
structure CalendarDoc where
  headers : List String
  col_widths : List ℚ
  rows : List WeekRow
deriving DecidableEq

/-- Result of a generation call: the returned filepath, the document
written there, and the filesystem after `os.makedirs`. -/
structure RenderResult where
  filepath : String
  doc : CalendarDoc
  fs : List String
deriving DecidableEq

/-- `_create_calendar_pdf` from `generate.py`: scale the column widths,
draw row `week_idx` with user-facing number `week_idx + 1` and content
`total_content_fn(week_idx)`, then `os.makedirs(OUTPUT_DIR, exist_ok=True)`
and write to `os.path.join(OUTPUT_DIR, filename)`. The module global
`OUTPUT_DIR` is the explicit `outputDir` parameter and the filesystem the
explicit `fs`; a drawing exception aborts before any filesystem effect. -/
def create_calendar_pdf (outputDir : String) (fs : List String) (filename : String)
    (headers : List String) (col_widths : List ℚ) (week_dates_list : List (List Date))
    (has_total : Bool) (total_content_fn : Option (Nat → List String))
    (workout_labels : Option (List String)) : Option RenderResult :=
  let cw := scaled_col_widths col_widths
  match mapMO (fun p =>
      draw_week_row (p.1 + 1) p.2 has_total
        (total_content_fn.map (fun f => f p.1)) workout_labels)
      week_dates_list.enum with
  | none => none
  | some rows =>
    some { filepath := os_path_join outputDir filename,
           doc := { headers := headers, col_widths := cw, rows := rows },
           fs := makedirs fs outputDir }

def DAY_NAMES : List String := ["Mon", "Tue", "Wed", "Thu", "Fri", "Sat", "Sun"]

/-- `generate_pages_read` from `generate.py`. -/
def generate_pages_read (outputDir : String) (fs : List String) (start_date : Date)
    (goal : Int) : Option RenderResult :=
  let headers := ["Week"] ++ DAY_NAMES ++ ["TOTAL"]
  let col_widths : List ℚ := [40] ++ List.replicate 7 90 ++ [80]
  let week_dates_list := generate_week_dates start_date
  create_calendar_pdf outputDir fs "Pages Read.pdf" headers col_widths week_dates_list
    true (some (fun _ => ["Goal: " ++ toString goal, "Actual:"])) none

/-- `generate_project_hours` from `generate.py`. -/
def generate_project_hours (outputDir : String) (fs : List String) (start_date : Date) :
    Option RenderResult :=
  let headers := ["Week"] ++ DAY_NAMES ++ ["TOTAL"]
  let col_widths : List ℚ := [40] ++ List.replicate 7 90 ++ [80]
  let week_dates_list := generate_week_dates start_date
  create_calendar_pdf outputDir fs "Project Hours.pdf" headers col_widths week_dates_list
    true (some (fun _ => ["Hours This Week:", "Debt:"])) none

/-- `generate_workouts` from `generate.py`. -/
def generate_workouts (outputDir : String) (fs : List String) (start_date : Date)
    (workout_labels : List String) : Option RenderResult :=
  let headers := ["Week"] ++ DAY_NAMES
  let col_widths : List ℚ := [40] ++ List.replicate 7 100
  let week_dates_list := generate_week_dates start_date
  create_calendar_pdf outputDir fs "Workouts.pdf" headers col_widths week_dates_list
    false none (some workout_labels)

theorem daysInMonth_ge (y m : Nat) : 28 ≤ daysInMonth y m := by
  unfold daysInMonth
  split
  · split <;> omega
  · split <;> omega

theorem daysBeforeMonth_succ (y m : Nat) (h : 1 ≤ m) :
    daysBeforeMonth y (m + 1) = daysBeforeMonth y m + daysInMonth y m := by
  obtain ⟨k, rfl⟩ : ∃ k, m = k + 1 := ⟨m - 1, by omega⟩
  unfold daysBeforeMonth
  simp [List.range_succ]

theorem daysBeforeMonth_twelve (y : Nat) :
    daysBeforeMonth y 12 + 31 = if isLeap y then 366 else 365 := by
  have hr : List.range 11 = [0, 1, 2, 3, 4, 5, 6, 7, 8, 9, 10] := rfl
  unfold daysBeforeMonth
  rw [show (12 - 1 : Nat) = 11 from rfl, hr]
  cases h : isLeap y <;> simp [daysInMonth, h]

theorem daysBeforeYear_succ (y : Nat) (h : 1 ≤ y) :
    daysBeforeYear (y + 1) = daysBeforeYear y + (if isLeap y then 366 else 365) := by
  unfold daysBeforeYear isLeap
  split
  next hl =>
    simp only [Bool.or_eq_true, Bool.and_eq_true, beq_iff_eq, bne_iff_ne, ne_eq] at hl
    omega
  next hl =>
    simp only [Bool.or_eq_true, Bool.and_eq_true, beq_iff_eq, bne_iff_ne, ne_eq] at hl
    push_neg at hl
    omega

theorem toOrdinal_nextDay (d : Date) (h : d.Valid) :
    toOrdinal (nextDay d) = toOrdinal d + 1 := by
  obtain ⟨hy, hm1, hm2, hd1, hd2⟩ := h
  unfold nextDay
  split
  · simp only [toOrdinal]
    omega
  · split
    next hlt hm =>
      have hde : d.day = daysInMonth d.year d.month := by omega
      simp only [toOrdinal]
      rw [daysBeforeMonth_succ _ _ hm1]
      omega
    next hlt hm =>
      have hm12 : d.month = 12 := by omega
      have hde : d.day = daysInMonth d.year d.month := by omega
      have h31 : daysInMonth d.year 12 = 31 := by norm_num [daysInMonth]
      have h0 : daysBeforeMonth (d.year + 1) 1 = 0 := by
        simp [daysBeforeMonth]
      have ht := daysBeforeMonth_twelve d.year
      have hs := daysBeforeYear_succ d.year hy
      simp only [toOrdinal, h0]
      rw [hm12] at hde
      rw [hm12, hde, h31]
      cases hL : isLeap d.year <;> simp [hL] at ht hs <;> omega

theorem nextDay_valid (d : Date) (h : d.Valid) : (nextDay d).Valid := by
  obtain ⟨hy, hm1, hm2, hd1, hd2⟩ := h
  unfold nextDay
  split
  · refine ⟨?_, ?_, ?_, ?_, ?_⟩ <;> dsimp only [Date.Valid] <;> omega
  · split
    next hlt hm =>
      have hge := daysInMonth_ge d.year (d.month + 1)
      refine ⟨?_, ?_, ?_, ?_, ?_⟩ <;> dsimp only [Date.Valid] <;> omega
    next hlt hm =>
      have hge := daysInMonth_ge (d.year + 1) 1
      refine ⟨?_, ?_, ?_, ?_, ?_⟩ <;> dsimp only [Date.Valid] <;> omega

theorem addDays_valid (d : Date) (h : d.Valid) (n : Nat) : (addDays d n).Valid := by
  induction n with
  | zero => exact h
  | succ k ih => exact nextDay_valid _ ih

theorem toOrdinal_addDays (d : Date) (h : d.Valid) (n : Nat) :
    toOrdinal (addDays d n) = toOrdinal d + n := by
  induction n with
  | zero => rfl
  | succ k ih =>
    show toOrdinal (nextDay (addDays d k)) = toOrdinal d + (k + 1)
    rw [toOrdinal_nextDay _ (addDays_valid d h k), ih]
    omega

theorem addDays_addDays (d : Date) (a b : Nat) :
    addDays (addDays d a) b = addDays d (a + b) := by
  induction b with
  | zero => rfl
  | succ k ih =>
    show nextDay (addDays (addDays d a) k) = addDays d (a + (k + 1))
    rw [ih]
    rfl

theorem mapMO_nil {α β : Type} (f : α → Option β) : mapMO f [] = some [] := rfl

theorem mapMO_cons {α β : Type} (f : α → Option β) (a : α) (t : List α) :
    mapMO f (a :: t) =
      match f a with
      | none => none
      | some b =>
        match mapMO f t with
        | none => none
        | some r => some (b :: r) := rfl

theorem mapMO_singleton {α β : Type} (f : α → Option β) (a : α) :
    mapMO f [a] = Option.map (fun b => [b]) (f a) := by
  rw [mapMO_cons]
  cases hfa : f a with
  | none => rfl
  | some b => rfl

theorem mapMO_append {α β : Type} (f : α → Option β) (l1 l2 : List α) :
    mapMO f (l1 ++ l2) =
      match mapMO f l1 with
      | none => none
      | some r1 =>
        match mapMO f l2 with
        | none => none
        | some r2 => some (r1 ++ r2) := by
  induction l1 with
  | nil =>
    simp [mapMO]
    cases mapMO f l2 <;> rfl
  | cons a t ih =>
    show mapMO f (a :: (t ++ l2)) = _
    rw [mapMO, mapMO, ih]
    cases f a <;> cases mapMO f t <;> cases mapMO f l2 <;> rfl

theorem mapMO_range_getElem? {α : Type} (n : Nat) (l : List α) :
    mapMO (fun i => l[i]?) (List.range n) =
      if n ≤ l.length then some (l.take n) else none := by
  induction n with
  | zero => simp [mapMO]
  | succ k ih =>
    rw [List.range_succ, mapMO_append, ih, mapMO_singleton]
    by_cases hk : k + 1 ≤ l.length
    · have hk0 : k ≤ l.length := by omega
      have hklt : k < l.length := by omega
      rw [if_pos hk0, if_pos hk, List.getElem?_eq_getElem hklt]
      show some (List.take k l ++ [l.get ⟨k, hklt⟩]) = some (List.take (k + 1) l)
      rw [List.take_succ, List.getElem?_eq_getElem hklt]
      rfl
    · rw [if_neg hk]
      by_cases hk0 : k ≤ l.length
      · have hle : l.length ≤ k := by omega
        rw [if_pos hk0, List.getElem?_eq_none hle]
        rfl
      · rw [if_neg hk0]

theorem mapMO_eq_some_map {α β : Type} (g : α → Option β) (h : α → β) :
    ∀ l : List α, (∀ a ∈ l, g a = some (h a)) → mapMO g l = some (l.map h) := by
  intro l
  induction l with
  | nil => intro _; rfl
  | cons a t ih =>
    intro hall
    rw [mapMO, hall a (by simp), ih (fun x hx => hall x (by simp [hx]))]
    simp

theorem generate_week_dates_length (s : Date) : (generate_week_dates s).length = 10 := by
  simp [generate_week_dates]

theorem generate_week_dates_week_length (s : Date) :
    ∀ wk ∈ generate_week_dates s, wk.length = 7 := by
  intro wk hwk
  unfold generate_week_dates at hwk
  obtain ⟨w, hw, rfl⟩ := List.mem_map.mp hwk
  simp

theorem draw_week_row_eval (week_num : Nat) (week_dates : List Date) (has_total : Bool)
    (total_content : Option (List String)) (workout_labels : Option (List String))
    (h7 : week_dates.length = 7)
    (hl : workout_labels = none ∨ 7 ≤ (workout_labels.getD []).length) :
    draw_week_row week_num week_dates has_total total_content workout_labels =
      some { weekLabel := toString week_num,
             dayDates := week_dates.map format_date,
             dayLabels :=
               if truthy workout_labels then (workout_labels.getD []).take 7 else [],
             totalLines :=
               if has_total && truthy total_content then total_content.getD [] else [] } := by
  unfold draw_week_row
  have hfun : (fun day_idx : Nat => (week_dates[day_idx]?).map format_date)
      = (fun day_idx : Nat => (week_dates.map format_date)[day_idx]?) := by
    funext i
    rw [List.getElem?_map]
  rw [hfun, mapMO_range_getElem? 7 (week_dates.map format_date),
    if_pos (by simp [h7]), List.take_of_length_le (by simp [h7])]
  cases hw : workout_labels with
  | none => simp [truthy]
  | some ls =>
    have h7l : 7 ≤ ls.length := by
      rcases hl with h | h
      · exact absurd (hw ▸ h) (by simp)
      · simpa [hw] using h
    have hne : ls.isEmpty = false := by
      cases ls with
      | nil => simp at h7l
      | cons a t => simp
    simp only [truthy, hne, Bool.not_false, if_pos, Option.getD_some]
    rw [mapMO_range_getElem? 7 ls, if_pos h7l]

theorem draw_week_row_weekLabel (week_num : Nat) (week_dates : List Date) (has_total : Bool)
    (total_content workout_labels : Option (List String)) (r : WeekRow)
    (h : draw_week_row week_num week_dates has_total total_content workout_labels = some r) :
    r.weekLabel = toString week_num := by
  unfold draw_week_row at h
  cases h1 : mapMO (fun day_idx => (week_dates[day_idx]?).map format_date) (List.range 7) with
  | none => rw [h1] at h; exact absurd h (by simp)
  | some dd =>
    rw [h1] at h
    cases h2 : (if truthy workout_labels then
        mapMO (fun day_idx => (workout_labels.getD [])[day_idx]?) (List.range 7)
      else some []) with
    | none => rw [h2] at h; exact absurd h (by simp)
    | some dl =>
      rw [h2] at h
      simp only [Option.some_inj] at h
      rw [← h]

theorem draw_week_row_fail (week_num : Nat) (week_dates : List Date) (has_total : Bool)
    (total_content : Option (List String)) (ls : List String)
    (h7 : week_dates.length = 7) (hne : ls ≠ []) (hshort : ls.length < 7) :
    draw_week_row week_num week_dates has_total total_content (some ls) = none := by
  unfold draw_week_row
  have hfun : (fun day_idx : Nat => (week_dates[day_idx]?).map format_date)
      = (fun day_idx : Nat => (week_dates.map format_date)[day_idx]?) := by
    funext i
    rw [List.getElem?_map]
  rw [hfun, mapMO_range_getElem? 7 (week_dates.map format_date), if_pos (by simp [h7])]
  have hemp : ls.isEmpty = false := by
    cases ls with
    | nil => exact absurd rfl hne
    | cons a t => simp
  simp only [truthy, hemp, Bool.not_false, if_pos, Option.getD_some]
  rw [mapMO_range_getElem? 7 ls, if_neg (by omega)]

theorem create_calendar_pdf_eval (outputDir : String) (fs : List String) (filename : String)
    (headers : List String) (col_widths : List ℚ) (week_dates_list : List (List Date))
    (has_total : Bool) (total_content_fn : Option (Nat → List String))
    (workout_labels : Option (List String))
    (h7 : ∀ wk ∈ week_dates_list, wk.length = 7)
    (hl : workout_labels = none ∨ 7 ≤ (workout_labels.getD []).length) :
    create_calendar_pdf outputDir fs filename headers col_widths week_dates_list has_total
        total_content_fn workout_labels =
      some { filepath := os_path_join outputDir filename,
             doc := { headers := headers,
                      col_widths := scaled_col_widths col_widths,
                      rows := week_dates_list.enum.map (fun p =>
                        { weekLabel := toString (p.1 + 1),
                          dayDates := p.2.map format_date,
                          dayLabels :=
                            if truthy workout_labels
                            then (workout_labels.getD []).take 7 else [],
                          totalLines :=
                            if has_total && truthy (total_content_fn.map (fun f => f p.1))
                            then (total_content_fn.map (fun f => f p.1)).getD []
                            else [] }) },
             fs := makedirs fs outputDir } := by
  unfold create_calendar_pdf
  rw [mapMO_eq_some_map
    (fun p => draw_week_row (p.1 + 1) p.2 has_total
      (total_content_fn.map (fun f => f p.1)) workout_labels)
    (fun p =>
      { weekLabel := toString (p.1 + 1),
        dayDates := p.2.map format_date,
        dayLabels := if truthy workout_labels then (workout_labels.getD []).take 7 else [],
        totalLines := if has_total && truthy (total_content_fn.map (fun f => f p.1))
                      then (total_content_fn.map (fun f => f p.1)).getD [] else [] })
    week_dates_list.enum (fun p hp => ?_)]
  obtain ⟨i, wk⟩ := p
  have hm := List.mem_enum hp
  have hwk : wk ∈ week_dates_list := by
    rw [hm.2]
    exact List.getElem_mem hm.1
  exact draw_week_row_eval _ _ _ _ _ (h7 wk hwk) hl

theorem digitRun_cons (c : Char) (t : List Char) :
    digitRun (c :: t) =
      if isDig c then (c :: (digitRun t).1, (digitRun t).2) else ([], c :: t) := rfl

theorem digitRun_spec : ∀ cs : List Char,
    cs = (digitRun cs).1 ++ (digitRun cs).2 ∧ ∀ c ∈ (digitRun cs).1, isDig c = true := by
  intro cs
  induction cs with
  | nil => exact ⟨rfl, by intro c hc; simp [digitRun] at hc⟩
  | cons c t ih =>
    rw [digitRun_cons]
    by_cases hd : isDig c
    · rw [if_pos hd]
      constructor
      · show c :: t = c :: (digitRun t).1 ++ (digitRun t).2
        rw [List.cons_append, ← ih.1]
      · intro x hx
        rcases List.mem_cons.mp hx with rfl | hx2
        · exact hd
        · exact ih.2 x hx2
    · rw [if_neg hd]
      exact ⟨rfl, by intro x hx; simp at hx⟩

theorem digitRun_append (a b : List Char) (ha : ∀ c ∈ a, isDig c = true)
    (hb : b = [] ∨ ∃ c cs, b = c :: cs ∧ isDig c = false) :
    digitRun (a ++ b) = (a, b) := by
  induction a with
  | nil =>
    rw [List.nil_append]
    rcases hb with rfl | ⟨c, cs, rfl, hc⟩
    · rfl
    · rw [digitRun_cons, if_neg (by simp [hc])]
  | cons x t ih =>
    rw [List.cons_append, digitRun_cons, if_pos (ha x (by simp)),
      ih (fun c hc => ha c (by simp [hc]))]

theorem slash_not_dig : isDig '/' = false := by decide

theorem regexMatch_decomp (cs : List Char) (m d y : Nat)
    (h : regexMatchMDY cs = some (m, d, y)) :
    ∃ mrun drun yrun : List Char,
      cs = mrun ++ '/' :: (drun ++ '/' :: yrun) ∧
      (∀ c ∈ mrun, isDig c = true) ∧ (∀ c ∈ drun, isDig c = true) ∧
      (∀ c ∈ yrun, isDig c = true) ∧
      (mrun.length = 1 ∨ mrun.length = 2) ∧
      (drun.length = 1 ∨ drun.length = 2) ∧ yrun.length = 4 ∧
      digitsVal mrun = m ∧ digitsVal drun = d ∧ digitsVal yrun = y ∧
      1 ≤ m ∧ m ≤ 12 ∧ 1 ≤ d ∧ d ≤ 31 := by
  unfold regexMatchMDY at h
  cases h1 : (digitRun cs).2 with
  | nil => rw [h1] at h; simp at h
  | cons c1 r1 =>
    rw [h1] at h
    dsimp only at h
    by_cases hc1 : c1 = '/'
    · rw [if_pos hc1] at h
      cases h2 : (digitRun r1).2 with
      | nil => rw [h2] at h; simp at h
      | cons c2 r2 =>
        rw [h2] at h
        dsimp only at h
        by_cases hc2 : c2 = '/'
        · rw [if_pos hc2] at h
          by_cases hcond : ((digitRun cs).1.length = 1 ∨ (digitRun cs).1.length = 2) ∧
              1 ≤ digitsVal (digitRun cs).1 ∧ digitsVal (digitRun cs).1 ≤ 12 ∧
              ((digitRun r1).1.length = 1 ∨ (digitRun r1).1.length = 2) ∧
              1 ≤ digitsVal (digitRun r1).1 ∧ digitsVal (digitRun r1).1 ≤ 31 ∧
              (digitRun r2).1.length = 4 ∧ (digitRun r2).2 = []
          · rw [if_pos hcond] at h
            obtain ⟨hl1, hv1a, hv1b, hl2, hv2a, hv2b, hl3, hr3⟩ := hcond
            simp only [Option.some_inj, Prod.mk.injEq] at h
            obtain ⟨hm, hd, hy⟩ := h
            refine ⟨(digitRun cs).1, (digitRun r1).1, (digitRun r2).1,
              ?_, (digitRun_spec cs).2, (digitRun_spec r1).2, (digitRun_spec r2).2,
              hl1, hl2, hl3, hm, hd, hy, by omega, by omega, by omega, by omega⟩
            subst hc1
            subst hc2
            have e1 := (digitRun_spec cs).1
            have e2 := (digitRun_spec r1).1
            have e3 := (digitRun_spec r2).1
            rw [hr3, List.append_nil] at e3
            rw [h2] at e2
            rw [h1] at e1
            rw [e2, e3] at e1
            exact e1
          · rw [if_neg hcond] at h
            exact absurd h (by simp)
        · rw [if_neg hc2] at h
          exact absurd h (by simp)
    · rw [if_neg hc1] at h
      exact absurd h (by simp)

theorem regexMatch_of_shape (mrun drun yrun : List Char)
    (hm : ∀ c ∈ mrun, isDig c = true) (hd : ∀ c ∈ drun, isDig c = true)
    (hy : ∀ c ∈ yrun, isDig c = true)
    (hl1 : mrun.length = 1 ∨ mrun.length = 2)
    (hv1a : 1 ≤ digitsVal mrun) (hv1b : digitsVal mrun ≤ 12)
    (hl2 : drun.length = 1 ∨ drun.length = 2)
    (hv2a : 1 ≤ digitsVal drun) (hv2b : digitsVal drun ≤ 31)
    (hl3 : yrun.length = 4) :
    regexMatchMDY (mrun ++ '/' :: (drun ++ '/' :: yrun)) =
      some (digitsVal mrun, digitsVal drun, digitsVal yrun) := by
  have e1 : digitRun (mrun ++ '/' :: (drun ++ '/' :: yrun))
      = (mrun, '/' :: (drun ++ '/' :: yrun)) :=
    digitRun_append _ _ hm (Or.inr ⟨'/', _, rfl, slash_not_dig⟩)
  have e2 : digitRun (drun ++ '/' :: yrun) = (drun, '/' :: yrun) :=
    digitRun_append _ _ hd (Or.inr ⟨'/', _, rfl, slash_not_dig⟩)
  have e3 : digitRun yrun = (yrun, []) := by
    have := digitRun_append yrun [] hy (Or.inl rfl)
    rwa [List.append_nil] at this
  unfold regexMatchMDY
  rw [e1]
  dsimp only
  rw [if_pos rfl, e2]
  dsimp only
  rw [if_pos rfl, e3]
  dsimp only
  rw [if_pos ⟨hl1, hv1a, hv1b, hl2, hv2a, hv2b, hl3, rfl⟩]

theorem isDig_bounds (c : Char) (h : isDig c = true) :
    48 ≤ c.toNat ∧ c.toNat ≤ 57 := by
  unfold isDig at h
  rw [Bool.and_eq_true, decide_eq_true_eq, decide_eq_true_eq] at h
  exact h

theorem digitChar_toNat (c : Char) (h : isDig c = true) :
    digitChar (c.toNat - 48) = c := by
  obtain ⟨h1, h2⟩ := isDig_bounds c h
  unfold digitChar
  rw [show 48 + (c.toNat - 48) = c.toNat by omega]
  exact Char.ofNat_toNat c

theorem digitsVal_singleton (c : Char) : digitsVal [c] = c.toNat - 48 := by
  unfold digitsVal
  simp

theorem digitsVal_pair (c1 c2 : Char) :
    digitsVal [c1, c2] = 10 * (c1.toNat - 48) + (c2.toNat - 48) := by
  unfold digitsVal
  simp

theorem twoDigit_digitsVal (run : List Char) (hd : ∀ c ∈ run, isDig c = true)
    (hlen : run.length = 1 ∨ run.length = 2) :
    twoDigit (digitsVal run) = zeroPad2 run := by
  match run, hlen with
  | [c], _ =>
    have hc := isDig_bounds c (hd c (by simp))
    have hv : digitsVal [c] = c.toNat - 48 := digitsVal_singleton c
    have hv9 : digitsVal [c] ≤ 9 := by omega
    unfold twoDigit zeroPad2
    rw [if_pos (by simp)]
    rw [Nat.div_eq_of_lt (by omega), Nat.mod_eq_of_lt (by omega), hv,
      digitChar_toNat c (hd c (by simp))]
    rfl
  | [c1, c2], _ =>
    have hc1 := isDig_bounds c1 (hd c1 (by simp))
    have hc2 := isDig_bounds c2 (hd c2 (by simp))
    have hv : digitsVal [c1, c2] = 10 * (c1.toNat - 48) + (c2.toNat - 48) :=
      digitsVal_pair c1 c2
    unfold twoDigit zeroPad2
    rw [if_neg (by simp)]
    rw [hv, show (10 * (c1.toNat - 48) + (c2.toNat - 48)) / 10 = c1.toNat - 48 by omega,
      show (10 * (c1.toNat - 48) + (c2.toNat - 48)) % 10 = c2.toNat - 48 by omega,
      digitChar_toNat c1 (hd c1 (by simp)), digitChar_toNat c2 (hd c2 (by simp))]

theorem digitsVal_lt_pow (run : List Char) (hd : ∀ c ∈ run, isDig c = true) :
    digitsVal run < 10 ^ run.length := by
  suffices hgen : ∀ (l : List Char) (a : Nat), (∀ c ∈ l, isDig c = true) →
      l.foldl (fun acc c => 10 * acc + (c.toNat - 48)) a < (a + 1) * 10 ^ l.length by
    have := hgen run 0 hd
    simpa [digitsVal] using this
  intro l
  induction l with
  | nil => intro a _; simp
  | cons c t ih =>
    intro a hall
    have hc := isDig_bounds c (hall c (by simp))
    have hstep := ih (10 * a + (c.toNat - 48)) (fun x hx => hall x (by simp [hx]))
    calc (c :: t).foldl (fun acc c => 10 * acc + (c.toNat - 48)) a
        = t.foldl (fun acc c => 10 * acc + (c.toNat - 48)) (10 * a + (c.toNat - 48)) := rfl
      _ < (10 * a + (c.toNat - 48) + 1) * 10 ^ t.length := hstep
      _ ≤ (a + 1) * 10 ^ (c :: t).length := by
          rw [List.length_cons, pow_succ]
          have h1 : 10 * a + (c.toNat - 48) + 1 ≤ (a + 1) * 10 := by omega
          calc (10 * a + (c.toNat - 48) + 1) * 10 ^ t.length
              ≤ (a + 1) * 10 * 10 ^ t.length := Nat.mul_le_mul_right _ h1
            _ = (a + 1) * (10 ^ t.length * 10) := by ring

theorem sum_map_mul (l : List ℚ) (c : ℚ) :
    (l.map (fun w => w * c)).sum = l.sum * c := by
  induction l with
  | nil => simp
  | cons a t ih =>
    simp only [List.map_cons, List.sum_cons, ih]
    ring

/-- C1: for every (valid) start date, `generate_week_dates` returns exactly
10 weeks of 7 dates each; the date at day `d` of week `w` is
`start + 7w days` plus `d` days, so week `w` starts at `start + 7w` days,
each date within a week is the week start plus its day index, and the
flattened 70-date sequence increases by exactly one ordinal day at every
step; month/year boundaries roll over by plain date arithmetic — a start of
Monday 2025-12-29 gives a first week 12/29 through 01/04. -/
theorem C1_generate_week_dates (start : Date) (h : start.Valid) :
    (generate_week_dates start).length = 10 ∧
    (∀ wk ∈ generate_week_dates start, wk.length = 7) ∧
    (∀ w : Nat, w < 10 → ∀ d : Nat, d < 7 →
      ((generate_week_dates start)[w]?).bind (fun wk => wk[d]?) =
        some (addDays (addDays start (7 * w)) d) ∧
      toOrdinal (addDays (addDays start (7 * w)) d) = toOrdinal start + (7 * w + d)) ∧
    (generate_week_dates ⟨2025, 12, 29⟩)[0]? =
      some [⟨2025, 12, 29⟩, ⟨2025, 12, 30⟩, ⟨2025, 12, 31⟩,
            ⟨2026, 1, 1⟩, ⟨2026, 1, 2⟩, ⟨2026, 1, 3⟩, ⟨2026, 1, 4⟩] := by
  refine ⟨generate_week_dates_length start, generate_week_dates_week_length start,
    ?_, by decide⟩
  intro w hw d hd
  constructor
  · unfold generate_week_dates
    simp only [List.getElem?_map, List.getElem?_range hw, List.getElem?_range hd,
      Option.map_some', Option.some_bind]
  · rw [addDays_addDays, toOrdinal_addDays start h]

theorem C1_witness : (generate_week_dates ⟨2026, 3, 2⟩).length = 10 :=
  (C1_generate_week_dates ⟨2026, 3, 2⟩ (by decide)).1

/-- C4: for every (valid) date, `get_next_monday` returns a Monday
(weekday 0 in the Monday-is-0 convention the code uses); the ordinal
difference from today is between 0 and 6 days, and it is 0 — equivalently,
the date is returned unchanged — exactly when today is already Monday. -/
theorem C4_get_next_monday (today : Date) (h : today.Valid) :
    weekday (get_next_monday today) = 0 ∧
    toOrdinal today ≤ toOrdinal (get_next_monday today) ∧
    toOrdinal (get_next_monday today) - toOrdinal today ≤ 6 ∧
    (toOrdinal (get_next_monday today) - toOrdinal today = 0 ↔ weekday today = 0) ∧
    (get_next_monday today = today ↔ weekday today = 0) := by
  have hadd : toOrdinal (get_next_monday today) =
      toOrdinal today + (7 - weekday today) % 7 :=
    toOrdinal_addDays today h ((7 - weekday today) % 7)
  have hwd : weekday today = (toOrdinal today + 6) % 7 := rfl
  have hwd2 : weekday (get_next_monday today) =
      (toOrdinal (get_next_monday today) + 6) % 7 := rfl
  refine ⟨by omega, by omega, by omega, by omega, ?_⟩
  constructor
  · intro heq
    have h2 := congrArg toOrdinal heq
    omega
  · intro h0
    have hz : (7 - weekday today) % 7 = 0 := by omega
    show addDays today ((7 - weekday today) % 7) = today
    rw [hz]
    rfl

theorem C4_witness : weekday (get_next_monday ⟨2026, 3, 3⟩) = 0 :=
  (C4_get_next_monday ⟨2026, 3, 3⟩ (by decide)).1

/-- C3: `validate_date` raises the format error exactly when
`strptime(s, "%m/%d/%Y")` fails, raises the distinct Monday error exactly
when the string parses to a date whose weekday is not Monday, and returns
the parsed date exactly when it parses to a Monday; the two error messages
are distinguishable. -/
theorem C3_validate_date_classification :
    (∀ s, validate_date s = .error fmt_error_msg ↔ strptimeMDY s = none) ∧
    (∀ s, validate_date s = .error monday_error_msg ↔
      ∃ dt, strptimeMDY s = some dt ∧ weekday dt ≠ 0) ∧
    (∀ s dt, validate_date s = .ok dt ↔ strptimeMDY s = some dt ∧ weekday dt = 0) ∧
    fmt_error_msg ≠ monday_error_msg := by
  have hne : fmt_error_msg ≠ monday_error_msg := by decide
  refine ⟨?_, ?_, ?_, hne⟩
  · intro s
    unfold validate_date
    cases hp : strptimeMDY s with
    | none => simp
    | some dt0 =>
      dsimp only
      by_cases hw : weekday dt0 ≠ 0
      · rw [if_pos hw]
        simp [Ne.symm hne]
      · rw [if_neg hw]
        simp
  · intro s
    unfold validate_date
    cases hp : strptimeMDY s with
    | none => simp [hne]
    | some dt0 =>
      dsimp only
      by_cases hw : weekday dt0 ≠ 0
      · rw [if_pos hw]
        simp [hw]
      · rw [if_neg hw]
        push_neg at hw
        simp [hw]
  · intro s dt
    unfold validate_date
    cases hp : strptimeMDY s with
    | none => simp
    | some dt0 =>
      dsimp only
      by_cases hw : weekday dt0 ≠ 0
      · rw [if_pos hw]
        constructor
        · intro hcontra
          exact absurd hcontra (by simp)
        · rintro ⟨hsome, hwdt⟩
          simp only [Option.some_inj] at hsome
          subst hsome
          exact absurd hwdt hw
      · rw [if_neg hw]
        push_neg at hw
        constructor
        · intro hok
          simp only [Except.ok.injEq] at hok
          subst hok
          exact ⟨rfl, hw⟩
        · rintro ⟨hsome, hwdt⟩
          simp only [Option.some_inj] at hsome
          subst hsome
          rfl

/-- C2: for every nonempty schema of positive relative widths, each scaled
column width is the relative width times `usable width / sum of relative
widths`; the scaled widths sum exactly to the usable page width (so within
the 1e-6 tolerance); the row height is `(usable height - header height)/10`
and ten rows plus the header exactly fill the usable page height. Python
float arithmetic is modelled exactly over `ℚ`. -/
theorem C2_grid_geometry (ws : List ℚ) (hne : ws ≠ []) (hpos : ∀ w ∈ ws, 0 < w) :
    (∀ i : Nat, (scaled_col_widths ws)[i]? =
      (ws[i]?).map (fun w => w * ((page_w - 2 * margin) / ws.sum))) ∧
    (scaled_col_widths ws).sum = page_w - 2 * margin ∧
    |(scaled_col_widths ws).sum - (page_w - 2 * margin)| ≤ 1 / 1000000 ∧
    row_h = (page_h - 2 * margin - header_h) / 10 ∧
    row_h * 10 + header_h = page_h - 2 * margin := by
  have hsum : 0 < ws.sum := List.sum_pos ws hpos hne
  have hs : (scaled_col_widths ws).sum = page_w - 2 * margin := by
    unfold scaled_col_widths
    rw [sum_map_mul, mul_comm, div_mul_cancel₀ _ (ne_of_gt hsum)]
  refine ⟨?_, hs, by rw [hs, sub_self, abs_zero]; norm_num, rfl, ?_⟩
  · intro i
    unfold scaled_col_widths
    rw [List.getElem?_map]
  · unfold row_h page_h margin header_h
    norm_num

theorem C2_witness :
    (scaled_col_widths [40, 90, 90, 90, 90, 90, 90, 90, 80]).sum =
      page_w - 2 * margin :=
  (C2_grid_geometry [40, 90, 90, 90, 90, 90, 90, 90, 80] (by decide) (by decide)).2.1

/-- C5: for every string accepted by `validate_date`, the input decomposes
into slash-separated month/day/year digit runs, and `format_date` applied
to the returned date renders exactly the input's month and day runs
zero-padded to two digits each, with no year. -/
theorem C5_round_trip (s : String) (dt : Date)
    (h : validate_date s = .ok dt) :
    ∃ mrun drun yrun : List Char,
      s.toList = mrun ++ '/' :: (drun ++ '/' :: yrun) ∧
      format_date dt = String.mk (zeroPad2 mrun ++ '/' :: zeroPad2 drun) := by
  unfold validate_date at h
  cases hp : strptimeMDY s with
  | none => rw [hp] at h; exact absurd h (by simp)
  | some dt0 =>
    rw [hp] at h
    dsimp only at h
    by_cases hw : weekday dt0 ≠ 0
    · rw [if_pos hw] at h
      exact absurd h (by simp)
    · rw [if_neg hw] at h
      simp only [Except.ok.injEq] at h
      subst h
      unfold strptimeMDY at hp
      cases hr : regexMatchMDY s.toList with
      | none => rw [hr] at hp; simp at hp
      | some v =>
        obtain ⟨m, d, y⟩ := v
        rw [hr] at hp
        dsimp only at hp
        by_cases hcond : 1 ≤ y ∧ y ≤ 9999 ∧ 1 ≤ m ∧ m ≤ 12 ∧ 1 ≤ d ∧
            d ≤ daysInMonth y m
        · rw [if_pos hcond] at hp
          simp only [Option.some_inj] at hp
          obtain ⟨mrun, drun, yrun, hdecomp, hdm, hdd, hdy, hl1, hl2, hl3,
            hvm, hvd, hvy, hm1, hm12, hd1, hd31⟩ :=
            regexMatch_decomp s.toList m d y hr
          refine ⟨mrun, drun, yrun, hdecomp, ?_⟩
          rw [← hp]
          unfold format_date
          dsimp only
          rw [← hvm, ← hvd, twoDigit_digitsVal mrun hdm hl1,
            twoDigit_digitsVal drun hdd hl2]
        · rw [if_neg hcond] at hp
          simp at hp

theorem C5_witness :
    ∃ mrun drun yrun : List Char,
      ("3/2/2026").toList = mrun ++ '/' :: (drun ++ '/' :: yrun) ∧
      format_date ⟨2026, 3, 2⟩ = String.mk (zeroPad2 mrun ++ '/' :: zeroPad2 drun) :=
  C5_round_trip "3/2/2026" ⟨2026, 3, 2⟩ (by rfl)

/-- C6 counterexample: the single-digit date string "3/2/2026" — which the
claim says must fail with the format error — is accepted by `validate_date`
(CPython's strptime `%m`/`%d` also match one-digit fields). -/
theorem C6_counterexample :
    validate_date "3/2/2026" = Except.ok ⟨2026, 3, 2⟩ ∧
    validate_date "3/2/2026" ≠ Except.error fmt_error_msg := by
  constructor
  · rfl
  · intro hcontra
    rw [show validate_date "3/2/2026" = Except.ok ⟨2026, 3, 2⟩ from rfl] at hcontra
    exact Except.noConfusion hcontra

/-- C6 amended: `validate_date` accepts slash-separated month/day/year
where month and day are one OR two digits (values 1..12 and 1..31, the
date further validated by the constructor) and the year exactly four
digits; strings not of that shape — e.g. the dash-separated "2026-03-02" —
fail with the format error, but one-digit forms such as "3/2/2026" are
accepted. -/
theorem C6_amended_format :
    (∀ s : String, (∃ v, regexMatchMDY s.toList = some v) ↔ MDYShape s) ∧
    validate_date "2026-03-02" = Except.error fmt_error_msg ∧
    validate_date "3/2/2026" = Except.ok ⟨2026, 3, 2⟩ := by
  refine ⟨?_, rfl, rfl⟩
  intro s
  constructor
  · rintro ⟨⟨m, d, y⟩, hv⟩
    obtain ⟨mrun, drun, yrun, hdecomp, hdm, hdd, hdy, hl1, hl2, hl3,
      hvm, hvd, hvy, hm1, hm12, hd1, hd31⟩ :=
      regexMatch_decomp s.toList m d y hv
    exact ⟨mrun, drun, yrun, hdecomp, hdm, hdd, hdy, hl1, by omega, by omega,
      hl2, by omega, by omega, hl3⟩
  · rintro ⟨mrun, drun, yrun, hdecomp, hdm, hdd, hdy, hl1, hv1a, hv1b,
      hl2, hv2a, hv2b, hl3⟩
    rw [hdecomp]
    exact ⟨_, regexMatch_of_shape mrun drun yrun hdm hdd hdy hl1 hv1a hv1b
      hl2 hv2a hv2b hl3⟩

theorem makedirs_mem (fs : List String) (dir : String) : dir ∈ makedirs fs dir := by
  unfold makedirs
  split
  next h => exact h
  next h => exact List.mem_cons_self _ _

theorem makedirs_of_mem (fs : List String) (dir : String) (h : dir ∈ fs) :
    makedirs fs dir = fs := by
  unfold makedirs
  rw [if_pos h]

theorem makedirs_idem (fs : List String) (dir : String) :
    makedirs (makedirs fs dir) dir = makedirs fs dir :=
  makedirs_of_mem _ _ (makedirs_mem fs dir)

/-- C7: each variant is pure configuration over the shared renderer: the
reading tracker uses the 9-column `Week + 7 days + TOTAL` schema with
per-week totals lines `"Goal: N"` / `"Actual:"`; the project-hours tracker
the same 9-column schema with static lines `"Hours This Week:"` /
`"Debt:"`; the workout tracker an 8-column schema with no totals content
and the supplied 7-entry label set repeated identically in the day cells of
every one of the 10 week rows. -/
theorem C7_variant_configs (outputDir : String) (fs : List String) (start : Date)
    (goal : Int) (labels : List String) (h7 : labels.length = 7) :
    (∃ res, generate_pages_read outputDir fs start goal = some res ∧
      res.doc.headers = ["Week", "Mon", "Tue", "Wed", "Thu", "Fri", "Sat", "Sun", "TOTAL"] ∧
      res.doc.headers.length = 9 ∧ res.doc.rows.length = 10 ∧
      ∀ r ∈ res.doc.rows,
        r.totalLines = ["Goal: " ++ toString goal, "Actual:"] ∧ r.dayLabels = []) ∧
    (∃ res, generate_project_hours outputDir fs start = some res ∧
      res.doc.headers = ["Week", "Mon", "Tue", "Wed", "Thu", "Fri", "Sat", "Sun", "TOTAL"] ∧
      res.doc.headers.length = 9 ∧ res.doc.rows.length = 10 ∧
      ∀ r ∈ res.doc.rows,
        r.totalLines = ["Hours This Week:", "Debt:"] ∧ r.dayLabels = []) ∧
    (∃ res, generate_workouts outputDir fs start labels = some res ∧
      res.doc.headers = ["Week", "Mon", "Tue", "Wed", "Thu", "Fri", "Sat", "Sun"] ∧
      res.doc.headers.length = 8 ∧ res.doc.rows.length = 10 ∧
      ∀ r ∈ res.doc.rows, r.totalLines = [] ∧ r.dayLabels = labels) := by
  have hlne : labels ≠ [] := by
    intro hh
    rw [hh] at h7
    simp at h7
  have htr : truthy (some labels) = true := by
    unfold truthy
    cases labels with
    | nil => exact absurd rfl hlne
    | cons a t => simp
  refine ⟨?_, ?_, ?_⟩
  · have heq : generate_pages_read outputDir fs start goal =
        create_calendar_pdf outputDir fs "Pages Read.pdf"
          (["Week"] ++ DAY_NAMES ++ ["TOTAL"]) ([40] ++ List.replicate 7 90 ++ [80])
          (generate_week_dates start) true
          (some (fun _ => ["Goal: " ++ toString goal, "Actual:"])) none := rfl
    rw [heq, create_calendar_pdf_eval _ _ _ _ _ _ _ _ _
      (generate_week_dates_week_length start) (Or.inl rfl)]
    refine ⟨_, rfl, rfl, rfl, ?_, ?_⟩
    · simp [List.enum_length, generate_week_dates_length]
    · intro r hr
      obtain ⟨p, hp, rfl⟩ := List.mem_map.mp hr
      exact ⟨rfl, rfl⟩
  · have heq : generate_project_hours outputDir fs start =
        create_calendar_pdf outputDir fs "Project Hours.pdf"
          (["Week"] ++ DAY_NAMES ++ ["TOTAL"]) ([40] ++ List.replicate 7 90 ++ [80])
          (generate_week_dates start) true
          (some (fun _ => ["Hours This Week:", "Debt:"])) none := rfl
    rw [heq, create_calendar_pdf_eval _ _ _ _ _ _ _ _ _
      (generate_week_dates_week_length start) (Or.inl rfl)]
    refine ⟨_, rfl, rfl, rfl, ?_, ?_⟩
    · simp [List.enum_length, generate_week_dates_length]
    · intro r hr
      obtain ⟨p, hp, rfl⟩ := List.mem_map.mp hr
      exact ⟨rfl, rfl⟩
  · have heq : generate_workouts outputDir fs start labels =
        create_calendar_pdf outputDir fs "Workouts.pdf"
          (["Week"] ++ DAY_NAMES) ([40] ++ List.replicate 7 100)
          (generate_week_dates start) false none (some labels) := rfl
    rw [heq, create_calendar_pdf_eval _ _ _ _ _ _ _ _ _
      (generate_week_dates_week_length start) (Or.inr (by simp [h7]))]
    refine ⟨_, rfl, rfl, rfl, ?_, ?_⟩
    · simp [List.enum_length, generate_week_dates_length]
    · intro r hr
      obtain ⟨p, hp, rfl⟩ := List.mem_map.mp hr
      refine ⟨rfl, ?_⟩
      dsimp only
      rw [htr, if_pos rfl, Option.getD_some, List.take_of_length_le (by omega)]

theorem C7_witness :
    ∃ res, generate_pages_read "out" [] ⟨2026, 3, 2⟩ 100 = some res ∧
      res.doc.headers = ["Week", "Mon", "Tue", "Wed", "Thu", "Fri", "Sat", "Sun", "TOTAL"] ∧
      res.doc.headers.length = 9 ∧ res.doc.rows.length = 10 ∧
      ∀ r ∈ res.doc.rows,
        r.totalLines = ["Goal: " ++ toString (100 : Int), "Actual:"] ∧ r.dayLabels = [] :=
  (C7_variant_configs "out" [] ⟨2026, 3, 2⟩ 100 ["a", "b", "c", "d", "e", "f", "g"]
    (by decide)).1

theorem rows_weekLabels_aux (has_total : Bool) (tcf : Option (Nat → List String))
    (wl : Option (List String)) :
    ∀ (l : List (List Date)) (k : Nat) (rows : List WeekRow),
      mapMO (fun p => draw_week_row (p.1 + 1) p.2 has_total
        (tcf.map (fun f => f p.1)) wl) (List.enumFrom k l) = some rows →
      rows.map (fun r => r.weekLabel) =
        (List.range l.length).map (fun i => toString (k + i + 1)) := by
  intro l
  induction l with
  | nil =>
    intro k rows h
    have h2 : some ([] : List WeekRow) = some rows := h
    simp only [Option.some_inj] at h2
    subst h2
    rfl
  | cons wk t ih =>
    intro k rows h
    rw [List.enumFrom_cons, mapMO_cons] at h
    dsimp only at h
    cases hg : draw_week_row (k + 1) wk has_total (tcf.map (fun f => f k)) wl with
    | none => rw [hg] at h; simp at h
    | some r0 =>
      rw [hg] at h
      cases ht : mapMO (fun p => draw_week_row (p.1 + 1) p.2 has_total
          (tcf.map (fun f => f p.1)) wl) (List.enumFrom (k + 1) t) with
      | none => rw [ht] at h; simp at h
      | some rs =>
        rw [ht] at h
        simp only [Option.some_inj] at h
        subst h
        rw [List.map_cons, draw_week_row_weekLabel _ _ _ _ _ _ hg, ih (k + 1) rs ht,
          List.length_cons, List.range_succ_eq_map, List.map_cons, List.map_map]
        have hhead : toString (k + 1) = toString (k + 0 + 1) := by
          rw [Nat.add_zero]
        have htail : (List.range t.length).map (fun i => toString (k + 1 + i + 1)) =
            (List.range t.length).map ((fun i => toString (k + i + 1)) ∘ Nat.succ) := by
          apply List.map_congr_left
          intro i hi
          show toString (k + 1 + i + 1) = toString (k + Nat.succ i + 1)
          rw [show k + 1 + i + 1 = k + Nat.succ i + 1 from by omega]
        rw [hhead, htail]

/-- C8: on every successfully rendered page, the week-number cell of the
row at 0-based index `w` carries the label `w + 1`, so the first-column
labels read 1 through the row count and are never 0-indexed. -/
theorem C8_week_number_labels (outputDir : String) (fs : List String) (filename : String)
    (headers : List String) (col_widths : List ℚ) (week_dates_list : List (List Date))
    (has_total : Bool) (tcf : Option (Nat → List String)) (wl : Option (List String))
    (res : RenderResult)
    (h : create_calendar_pdf outputDir fs filename headers col_widths week_dates_list
      has_total tcf wl = some res) :
    res.doc.rows.map (fun r => r.weekLabel) =
      (List.range res.doc.rows.length).map (fun w => toString (w + 1)) := by
  unfold create_calendar_pdf at h
  cases hm : mapMO (fun p => draw_week_row (p.1 + 1) p.2 has_total
      (tcf.map (fun f => f p.1)) wl) week_dates_list.enum with
  | none => rw [hm] at h; simp at h
  | some rows =>
    rw [hm] at h
    dsimp only at h
    simp only [Option.some_inj] at h
    have haux := rows_weekLabels_aux has_total tcf wl week_dates_list 0 rows hm
    have hlen : rows.length = week_dates_list.length := by
      have hc := congrArg List.length haux
      simpa using hc
    rw [← h]
    dsimp only
    rw [haux, hlen]
    apply List.map_congr_left
    intro i hi
    rw [Nat.zero_add]

theorem C8_witness :
    (RenderResult.mk "o/f.pdf"
      (CalendarDoc.mk [] [] [WeekRow.mk "1" (List.replicate 7 "03/02") [] []])
      ["o"]).doc.rows.map (fun r => r.weekLabel) =
    (List.range (RenderResult.mk "o/f.pdf"
      (CalendarDoc.mk [] [] [WeekRow.mk "1" (List.replicate 7 "03/02") [] []])
      ["o"]).doc.rows.length).map (fun w => toString (w + 1)) :=
  C8_week_number_labels "o" [] "f.pdf" [] [] [List.replicate 7 ⟨2026, 3, 2⟩]
    false none none _ (by rfl)

/-- C9: each generation call returns the join of the output directory and
its variant's fixed filename ("Pages Read.pdf", "Project Hours.pdf",
"Workouts.pdf"), after creating the output directory; directory creation is
create-if-absent, leaves an existing directory unchanged, and is
idempotent. -/
theorem C9_output_files (outputDir : String) (fs : List String) (start : Date)
    (goal : Int) (labels : List String) (h7 : labels.length = 7) :
    (∃ res, generate_pages_read outputDir fs start goal = some res ∧
      res.filepath = os_path_join outputDir "Pages Read.pdf" ∧
      res.fs = makedirs fs outputDir ∧ outputDir ∈ res.fs) ∧
    (∃ res, generate_project_hours outputDir fs start = some res ∧
      res.filepath = os_path_join outputDir "Project Hours.pdf" ∧
      res.fs = makedirs fs outputDir ∧ outputDir ∈ res.fs) ∧
    (∃ res, generate_workouts outputDir fs start labels = some res ∧
      res.filepath = os_path_join outputDir "Workouts.pdf" ∧
      res.fs = makedirs fs outputDir ∧ outputDir ∈ res.fs) ∧
    (∀ f d, d ∈ makedirs f d) ∧
    (∀ f d, d ∈ f → makedirs f d = f) ∧
    (∀ f d, makedirs (makedirs f d) d = makedirs f d) := by
  refine ⟨?_, ?_, ?_, fun f d => makedirs_mem f d, fun f d hd => makedirs_of_mem f d hd,
    fun f d => makedirs_idem f d⟩
  · have heq : generate_pages_read outputDir fs start goal =
        create_calendar_pdf outputDir fs "Pages Read.pdf"
          (["Week"] ++ DAY_NAMES ++ ["TOTAL"]) ([40] ++ List.replicate 7 90 ++ [80])
          (generate_week_dates start) true
          (some (fun _ => ["Goal: " ++ toString goal, "Actual:"])) none := rfl
    rw [heq, create_calendar_pdf_eval _ _ _ _ _ _ _ _ _
      (generate_week_dates_week_length start) (Or.inl rfl)]
    exact ⟨_, rfl, rfl, rfl, makedirs_mem fs outputDir⟩
  · have heq : generate_project_hours outputDir fs start =
        create_calendar_pdf outputDir fs "Project Hours.pdf"
          (["Week"] ++ DAY_NAMES ++ ["TOTAL"]) ([40] ++ List.replicate 7 90 ++ [80])
          (generate_week_dates start) true
          (some (fun _ => ["Hours This Week:", "Debt:"])) none := rfl
    rw [heq, create_calendar_pdf_eval _ _ _ _ _ _ _ _ _
      (generate_week_dates_week_length start) (Or.inl rfl)]
    exact ⟨_, rfl, rfl, rfl, makedirs_mem fs outputDir⟩
  · have heq : generate_workouts outputDir fs start labels =
        create_calendar_pdf outputDir fs "Workouts.pdf"
          (["Week"] ++ DAY_NAMES) ([40] ++ List.replicate 7 100)
          (generate_week_dates start) false none (some labels) := rfl
    rw [heq, create_calendar_pdf_eval _ _ _ _ _ _ _ _ _
      (generate_week_dates_week_length start) (Or.inr (by simp [h7]))]
    exact ⟨_, rfl, rfl, rfl, makedirs_mem fs outputDir⟩

theorem C9_witness :
    ∃ res, generate_pages_read "out" [] ⟨2026, 3, 2⟩ 100 = some res ∧
      res.filepath = os_path_join "out" "Pages Read.pdf" ∧
      res.fs = makedirs [] "out" ∧ "out" ∈ res.fs :=
  (C9_output_files "out" [] ⟨2026, 3, 2⟩ 100 ["a", "b", "c", "d", "e", "f", "g"]
    (by decide)).1

/-- C10: when a non-empty workout-label list is supplied, `_draw_week_row`
reads positions 0..6 of it, so `generate_workouts` needs at least 7 labels:
with 7 or more every access is in bounds and rendering succeeds, while a
non-empty list shorter than 7 makes the row drawing — and hence the whole
generation — fail. -/
theorem C10_workout_label_bounds (outputDir : String) (fs : List String) (start : Date)
    (labels : List String) (hne : labels ≠ []) :
    (7 ≤ labels.length → ∃ res, generate_workouts outputDir fs start labels = some res) ∧
    (labels.length < 7 → generate_workouts outputDir fs start labels = none) ∧
    (∀ (week_num : Nat) (week_dates : List Date) (has_total : Bool)
      (total_content : Option (List String)),
      week_dates.length = 7 → labels.length < 7 →
      draw_week_row week_num week_dates has_total total_content (some labels) = none) := by
  refine ⟨?_, ?_,
    fun wn wd ht tc hwd hs => draw_week_row_fail wn wd ht tc labels hwd hne hs⟩
  · intro hge
    have heq : generate_workouts outputDir fs start labels =
        create_calendar_pdf outputDir fs "Workouts.pdf"
          (["Week"] ++ DAY_NAMES) ([40] ++ List.replicate 7 100)
          (generate_week_dates start) false none (some labels) := rfl
    rw [heq, create_calendar_pdf_eval _ _ _ _ _ _ _ _ _
      (generate_week_dates_week_length start) (Or.inr (by simpa using hge))]
    exact ⟨_, rfl⟩
  · intro hlt
    have heq : generate_workouts outputDir fs start labels =
        create_calendar_pdf outputDir fs "Workouts.pdf"
          (["Week"] ++ DAY_NAMES) ([40] ++ List.replicate 7 100)
          (generate_week_dates start) false none (some labels) := rfl
    rw [heq]
    obtain ⟨w0, rest, hw⟩ : ∃ w0 rest, generate_week_dates start = w0 :: rest := by
      cases hgen : generate_week_dates start with
      | nil =>
        have hlen := generate_week_dates_length start
        rw [hgen] at hlen
        simp at hlen
      | cons a t => exact ⟨a, t, rfl⟩
    have hw0len : w0.length = 7 :=
      generate_week_dates_week_length start w0 (by rw [hw]; simp)
    unfold create_calendar_pdf
    rw [hw, List.enum_cons, mapMO_cons]
    dsimp only
    rw [draw_week_row_fail (0 + 1) w0 false
      (Option.map (fun f => f 0) (none : Option (Nat → List String)))
      labels hw0len hne hlt]

theorem C10_witness : generate_workouts "out" [] ⟨2026, 3, 2⟩ ["a"] = none :=
  (C10_workout_label_bounds "out" [] ⟨2026, 3, 2⟩ ["a"] (by decide)).2.1 (by decide)

end AccountabilityCalendars
